import Mathlib

/-!
Verification development for a heads-up Texas Hold'em poker repository
(poker_server.py / poker_cpu.py / relay_server.py).

The Python sources are shallowly embedded below.  Chip quantities are
modelled as `Int` (Python integers); Python's `//` floor division by a
positive divisor coincides with Lean's `Int` division `/`, and Python's
`%` with Lean's `%`, so those operators are used directly.  Cards carry
their numeric value (2..14) and a suit; the Python code keys its
`Counter` on rank strings, which are in bijection with the numeric
values, so multiplicities are counted over values here.
-/

namespace Poker

/-- A playing card: `value` is the rank value 2..14 (as produced by
`rank_values` in the source), `suit` one of the four suit symbols. -/
structure Card where
  value : Nat
  suit : Fin 4
  deriving DecidableEq, Repr

/-- Python's `str.lower()` (ASCII), written over the character list. -/
def strLower (s : String) : String :=
  String.mk (s.data.map Char.toLower)

/-- Python's `str.upper()` (ASCII), written over the character list. -/
def strUpper (s : String) : String :=
  String.mk (s.data.map Char.toUpper)

/-- Digit-string to number, the core of Python's `int()`. -/
def charsToNat? (cs : List Char) : Option Nat :=
  if cs.isEmpty then none
  else if cs.all Char.isDigit then
    some (cs.foldl (fun n c => 10 * n + (c.toNat - 48)) 0)
  else none

/-- Python's `int(s)` on the strings that matter here: an optional
minus sign followed by decimal digits parses, everything else raises
`ValueError` (`none`). -/
def strToInt? (s : String) : Option Int :=
  match s.data with
  | '-' :: rest => (charsToNat? rest).map (fun n => -(n : Int))
  | ds => (charsToNat? ds).map (fun n => (n : Int))

/-- A hand score, exactly the pair `(rank_score, values)` returned by
`evaluate_hand`: category as a Python int (the `-1` sentinel of
`best_five_of_seven` needs a negative), and the tiebreak value list. -/
def Score : Type := Int × List Nat

instance : DecidableEq Score := inferInstanceAs (DecidableEq (Int × List Nat))

/-- Python list comparison `xs < ys` on integer lists (lexicographic,
a strict prefix is smaller). -/
def listLtB : List Nat → List Nat → Bool
  | [], [] => false
  | [], _ :: _ => true
  | _ :: _, [] => false
  | a :: as, b :: bs => decide (a < b) || (a == b && listLtB as bs)

/-- Python tuple comparison `s < t` on `(rank_score, values)` pairs. -/
def scoreLtB (s t : Score) : Bool :=
  decide (s.1 < t.1) || (s.1 == t.1 && listLtB s.2 t.2)

/-- The card values of a hand, sorted descending: the source's
`values = sorted([c.value for c in cards], reverse=True)`. -/
def handValues (cs : List Card) : List Nat :=
  List.insertionSort (· ≥ ·) (cs.map Card.value)

/-- The source's `is_flush = len(set(suits_list)) == 1`. -/
def isFlush (cs : List Card) : Bool :=
  (cs.map Card.suit).toFinset.card == 1

/-- The source's `uniq_vals = sorted(set(values))`. -/
def uniqVals (cs : List Card) : List Nat :=
  List.insertionSort (· ≤ ·) (cs.map Card.value).dedup

/-- The source's
`is_straight = len(uniq_vals) == 5 and uniq_vals[-1] - uniq_vals[0] == 4`
(the last element of the ascending-sorted distinct values minus the
first; both indexings are total here via `getD`, and are only reached
on nonempty hands). -/
def isStraight (cs : List Card) : Bool :=
  (uniqVals cs).length == 5 &&
    ((uniqVals cs).getLast?.getD 0 - ((uniqVals cs).head?.getD 0) == 4)

/-- The multiset of rank multiplicities sorted descending: the counts
column of `Counter(ranks_list).most_common()`.  Ranks are in bijection
with values, so the count of a rank equals the count of its value. -/
def sortedCounts (cs : List Card) : List Nat :=
  List.insertionSort (· ≥ ·)
    ((cs.map Card.value).dedup.map fun v => (cs.map Card.value).count v)

/-- The source's `evaluate_hand`: classify a 5-card hand into a
category 0..8 and pair it with the descending value list.
`most_common[0][1]` is the largest multiplicity (head of the descending
count list); `most_common[1][1]` is the second entry, only inspected by
the source when at least two distinct ranks exist, so the `getD 1 0`
default is never the decisive value on inputs the source accepts. -/
def evaluate_hand (cs : List Card) : Score :=
  let values := handValues cs
  let mc0 := (sortedCounts cs).headD 0
  let mc1 := (sortedCounts cs).getD 1 0
  if isFlush cs && isStraight cs then ((8 : Int), values)
  else if mc0 == 4 then ((7 : Int), values)
  else if mc0 == 3 && mc1 == 2 then ((6 : Int), values)
  else if isFlush cs then ((5 : Int), values)
  else if isStraight cs then ((4 : Int), values)
  else if mc0 == 3 then ((3 : Int), values)
  else if mc0 == 2 && mc1 == 2 then ((2 : Int), values)
  else if mc0 == 2 then ((1 : Int), values)
  else ((0 : Int), values)

/-- The source's `best_five_of_seven`: fold over all 5-card
combinations keeping the strictly greater score, starting from the
sentinel `(-1, [])`.  (`itertools.combinations` enumerates the same
5-card subsets as `sublistsLen 5`; the fold keeps the maximum under the
total score order, which is enumeration-order independent — proved
below.) -/
def best_five_of_seven (cs : List Card) : Score :=
  (cs.sublistsLen 5).foldl
    (fun best combo =>
      let score := evaluate_hand combo
      if scoreLtB best score then score else best)
    ((-1 : Int), ([] : List Nat))

/-- The source's `Deck.deal(n)`, as the list comprehension
`[self.cards.pop() for _ in range(n)]`: pop the last card `n` times.
Returns the dealt cards (`none` once a pop hits the empty pile, the
comprehension's `IndexError`) together with the pile as left behind by
the call — on failure the pops already performed are not undone. -/
def deal : Nat → List Card → Option (List Card) × List Card
  | 0, cs => (some [], cs)
  | n + 1, cs =>
    match cs.getLast? with
    | none => (none, cs)
    | some c =>
      match deal n cs.dropLast with
      | (some ds, rest) => (some (c :: ds), rest)
      | (none, rest) => (none, rest)

end Poker

namespace Relay

/-- One parsed relay envelope: the `"to"` and `"payload"` fields of the
decoded JSON object (string payloads; `none` models an absent field).
The `"to"` field is called `target` because `to` is reserved in Lean. -/
structure RelayMsg where
  target : Option String
  payload : Option String
  deriving DecidableEq, Repr

/-- What `handle_client` does with one decoded message. -/
inductive RelayStep where
  /-- Logged and discarded, no reply (malformed message). -/
  | silent
  /-- A `{"from":"server", "payload": text}` line written back to the
  sender. -/
  | reply (text : String)
  /-- A `{"from": sender, "payload": payload}` line forwarded to
  `target`'s writer. -/
  | forward (target : String) (sender : String) (payload : String)
  deriving DecidableEq, Repr

/-- Result of processing one message: the action taken, and whether the
per-client loop leaves the session (every handled message falls through
to the next `readline`; only EOF or a transport exception ends it, so
`closes` is `false` on every branch below). -/
structure RelayResult where
  step : RelayStep
  closes : Bool
  deriving DecidableEq, Repr

/-- The per-message body of `handle_client`'s while-loop: `clients` is
the list of connected session ids in connection order (Python dict
insertion order), `sender` the id of the client the line came from.
Mirrors the source's checks in order: the `if not target or payload is
None` malformed guard (Python's `not` is true on `None` and on the
empty string), the `"server"` special target with the
case-insensitive `payload.upper() == "LIST"` test, the unknown-target
error, and finally the forward. -/
def handleMessage (clients : List String) (sender : String)
    (msg : RelayMsg) : RelayResult :=
  match msg.target, msg.payload with
  | none, _ => ⟨.silent, false⟩
  | some _, none => ⟨.silent, false⟩
  | some target, some payload =>
    if target == "" then ⟨.silent, false⟩
    else if target == "server" then
      if Poker.strUpper payload == "LIST" then
        ⟨.reply ("LIST:" ++ String.intercalate "," clients), false⟩
      else
        ⟨.reply "UNKNOWN_COMMAND", false⟩
    else if clients.contains target then
      ⟨.forward target sender payload, false⟩
    else
      ⟨.reply ("ERROR:Target " ++ target ++ " not connected"), false⟩

end Relay

namespace Poker

/-- Which player (the server host is `p1`, the remote client `p2`). -/
inductive Player where
  | p1
  | p2
  deriving DecidableEq, Repr

/-- The mutable state of `betting_round` in poker_server.py: the pot,
both stacks, the current bet, both per-round contributions, the
single-use raise flag, the in/fold flags, the all-in flags and the
`last_raiser` marker. -/
structure RoundState where
  pot : Int
  p1Chips : Int
  p2Chips : Int
  currentBet : Int
  p1Contrib : Int
  p2Contrib : Int
  raiseUsed : Bool
  p1In : Bool
  p2In : Bool
  p1AllIn : Bool
  p2AllIn : Bool
  lastRaiser : Option Player
  deriving DecidableEq, Repr

/-- How one player's turn ends: `ended` is a `return` out of the whole
round (a fold), `retry` a `continue` back to the top of the while-loop
(rejected input), `ok` a normal fall-through to the rest of the loop
body. -/
inductive TurnRes where
  | ended (st : RoundState)
  | retry (st : RoundState)
  | ok (st : RoundState)
  deriving DecidableEq, Repr

/-- The state carried by a `TurnRes`. -/
def TurnRes.state : TurnRes → RoundState
  | .ended st => st
  | .retry st => st
  | .ok st => st

/-- Player 1's turn in `betting_round` (poker_server.py lines 182-286).
`inputs` is the stream of lines player 1's input function returns;
`none` means the stream is exhausted while the source would still be
blocking on input.  Python's `int()` is modelled by `strToInt?`
(`none` = the `except` branch of the source's `try`). -/
def p1Turn (st : RoundState) (inputs : List String) :
    Option (TurnRes × List String) :=
  match inputs with
  | [] => none
  | raw :: rest =>
    let action := strLower raw
    let toCall := st.currentBet - st.p1Contrib
    if action == "fold" then
      some (.ended { st with p1In := false }, rest)
    else if action == "all-in" then
      let betAmt := st.p1Chips
      let st1 := { st with
        p1Chips := st.p1Chips - betAmt,
        p1Contrib := st.p1Contrib + betAmt,
        pot := st.pot + betAmt }
      let st2 :=
        if st1.p1Contrib > st1.currentBet then
          { st1 with currentBet := st1.p1Contrib,
                     lastRaiser := some .p1, raiseUsed := true }
        else st1
      some (.ok { st2 with p1AllIn := true }, rest)
    else if action == "call" then
      let callAmt := min toCall st.p1Chips
      let st1 := { st with
        p1Chips := st.p1Chips - callAmt,
        p1Contrib := st.p1Contrib + callAmt,
        pot := st.pot + callAmt }
      let st2 := if st1.p1Chips == 0 then { st1 with p1AllIn := true } else st1
      some (.ok st2, rest)
    else if action == "check" then
      if toCall > 0 then some (.retry st, rest)
      else some (.ok st, rest)
    else if (action == "bet" || action == "raise") && !st.raiseUsed then
      match rest with
      | [] => none
      | amtStr :: rest2 =>
        match strToInt? amtStr with
        | none => some (.retry st, rest2)
        | some amt =>
          if amt ≤ 0 || amt > st.p1Chips then some (.retry st, rest2)
          else
            let st1 := { st with
              p1Chips := st.p1Chips - amt,
              p1Contrib := st.p1Contrib + amt,
              pot := st.pot + amt,
              currentBet := st.p1Contrib + amt,
              lastRaiser := some .p1,
              raiseUsed := true }
            let st2 :=
              if st1.p1Chips == 0 then { st1 with p1AllIn := true } else st1
            some (.ok st2, rest2)
    else
      some (.retry st, rest)

/-- Player 2's turn in `betting_round` (poker_server.py lines 291-395),
symmetric to `p1Turn`. -/
def p2Turn (st : RoundState) (inputs : List String) :
    Option (TurnRes × List String) :=
  match inputs with
  | [] => none
  | raw :: rest =>
    let action := strLower raw
    let toCall := st.currentBet - st.p2Contrib
    if action == "fold" then
      some (.ended { st with p2In := false }, rest)
    else if action == "all-in" then
      let betAmt := st.p2Chips
      let st1 := { st with
        p2Chips := st.p2Chips - betAmt,
        p2Contrib := st.p2Contrib + betAmt,
        pot := st.pot + betAmt }
      let st2 :=
        if st1.p2Contrib > st1.currentBet then
          { st1 with currentBet := st1.p2Contrib,
                     lastRaiser := some .p2, raiseUsed := true }
        else st1
      some (.ok { st2 with p2AllIn := true }, rest)
    else if action == "call" then
      let callAmt := min toCall st.p2Chips
      let st1 := { st with
        p2Chips := st.p2Chips - callAmt,
        p2Contrib := st.p2Contrib + callAmt,
        pot := st.pot + callAmt }
      let st2 := if st1.p2Chips == 0 then { st1 with p2AllIn := true } else st1
      some (.ok st2, rest)
    else if action == "check" then
      if toCall > 0 then some (.retry st, rest)
      else some (.ok st, rest)
    else if (action == "bet" || action == "raise") && !st.raiseUsed then
      match rest with
      | [] => none
      | amtStr :: rest2 =>
        match strToInt? amtStr with
        | none => some (.retry st, rest2)
        | some amt =>
          if amt ≤ 0 || amt > st.p2Chips then some (.retry st, rest2)
          else
            let st1 := { st with
              p2Chips := st.p2Chips - amt,
              p2Contrib := st.p2Contrib + amt,
              pot := st.pot + amt,
              currentBet := st.p2Contrib + amt,
              lastRaiser := some .p2,
              raiseUsed := true }
            let st2 :=
              if st1.p2Chips == 0 then { st1 with p2AllIn := true } else st1
            some (.ok st2, rest2)
    else
      some (.retry st, rest)

/-- Everything known when the round's while-loop exits normally or by a
fold: the full final state, the unconsumed parts of both players'
input streams, and the order in which player turns actually ran (one
entry per prompt issued, used to reason about who is asked to act). -/
structure RoundExit where
  state : RoundState
  rem1 : List String
  rem2 : List String
  log : List Player
  deriving DecidableEq, Repr

/-- The while-loop of `betting_round` (poker_server.py lines 164-406),
driven by an explicit fuel so every run is finite; `none` means either
fuel ran out or a player's input stream was exhausted while the source
would still be blocking.  Mirrors, in order: the early break when a
player is all-in with equal contributions; player 1's turn (skipped
when folded or all-in; `retry` re-enters the loop from the top with the
state unchanged); player 2's turn (a `retry` here also re-enters from
the top, so player 1 acts again first); the end condition that needs
equal contributions and, if a `last_raiser` is pending, one more full
iteration after clearing it. -/
def roundLoop (st : RoundState) (in1 in2 : List String) (log : List Player) :
    Nat → Option RoundExit
  | 0 => none
  | fuel + 1 =>
    if (st.p1AllIn || st.p2AllIn) && st.p1Contrib == st.p2Contrib then
      some ⟨st, in1, in2, log⟩
    else
      match (if st.p1In && !st.p1AllIn then
               (p1Turn st in1).map (fun r => (r.1, r.2, true))
             else some (TurnRes.ok st, in1, false)) with
      | none => none
      | some (r1, in1a, prompted1) =>
        let log1 := if prompted1 then log ++ [Player.p1] else log
        match r1 with
        | .ended st1 => some ⟨st1, in1a, in2, log1⟩
        | .retry st1 => roundLoop st1 in1a in2 log1 fuel
        | .ok st1 =>
          match (if st1.p2In && !st1.p2AllIn then
                   (p2Turn st1 in2).map (fun r => (r.1, r.2, true))
                 else some (TurnRes.ok st1, in2, false)) with
          | none => none
          | some (r2, in2a, prompted2) =>
            let log2 := if prompted2 then log1 ++ [Player.p2] else log1
            match r2 with
            | .ended st2 => some ⟨st2, in1a, in2a, log2⟩
            | .retry st2 => roundLoop st2 in1a in2a log2 fuel
            | .ok st2 =>
              if st2.p1Contrib == st2.p2Contrib then
                match st2.lastRaiser with
                | none => some ⟨st2, in1a, in2a, log2⟩
                | some _ =>
                  roundLoop { st2 with lastRaiser := none } in1a in2a log2 fuel
              else
                roundLoop st2 in1a in2a log2 fuel

/-- The initial `RoundState` built by `betting_round`'s prologue from
its arguments (poker_server.py lines 158-162): both players start
in-hand, a player entering with an empty stack is immediately all-in,
and no raiser is recorded. -/
def initRound (p1Chips p2Chips pot currentBet p1Contrib p2Contrib : Int)
    (raiseUsed : Bool) : RoundState :=
  { pot := pot, p1Chips := p1Chips, p2Chips := p2Chips,
    currentBet := currentBet, p1Contrib := p1Contrib,
    p2Contrib := p2Contrib, raiseUsed := raiseUsed,
    p1In := true, p2In := true,
    p1AllIn := p1Chips == 0, p2AllIn := p2Chips == 0,
    lastRaiser := none }

/-- The source's `betting_round` seen from its caller: run the loop and
project the Python return tuple
`(pot, p1_chips, p2_chips, p1_in, p2_in)`. -/
def betting_round (p1Chips p2Chips pot currentBet p1Contrib p2Contrib : Int)
    (raiseUsed : Bool) (in1 in2 : List String) (fuel : Nat) :
    Option (Int × Int × Int × Bool × Bool) :=
  (roundLoop (initRound p1Chips p2Chips pot currentBet p1Contrib p2Contrib
      raiseUsed) in1 in2 [] fuel).map
    fun e => (e.state.pot, e.state.p1Chips, e.state.p2Chips,
      e.state.p1In, e.state.p2In)

end Poker

namespace Poker

/-- The four betting stages of one hand. -/
inductive Stage where
  | preflop
  | flop
  | turn
  | river
  deriving DecidableEq, Repr

/-- The zero-based position of a stage in the hand. -/
def Stage.idx : Stage → Nat
  | .preflop => 0
  | .flop => 1
  | .turn => 2
  | .river => 3

/-- How many community cards have been dealt when the given stage's
betting round runs (the flop cards are dealt before the flop round,
and so on). -/
def Stage.communityCount : Stage → Nat
  | .preflop => 0
  | .flop => 3
  | .turn => 4
  | .river => 5

/-- How one hand ends: a fold (the named player receives the pot), a
showdown won outright, or a split pot. -/
inductive Outcome where
  | fold (winner : Player) (stage : Stage)
  | showdown (winner : Player)
  | split
  deriving DecidableEq, Repr

/-- The Python tuple a betting round hands back to `play_full_game`,
tagged with its stage, kept as a per-hand trace. -/
structure RoundRec where
  stage : Stage
  pot : Int
  s1 : Int
  s2 : Int
  p1In : Bool
  p2In : Bool
  deriving DecidableEq, Repr

/-- Everything `play_full_game` has produced by the end of one hand:
the final stacks, how the hand ended, the community cards that were
actually dealt, and the trace of betting rounds that actually ran. -/
structure HandResult where
  s1 : Int
  s2 : Int
  outcome : Outcome
  community : List Card
  rounds : List RoundRec
  deriving DecidableEq, Repr

/-- The `RoundRec` for a finished round. -/
def mkRec (s : Stage) (e : RoundExit) : RoundRec :=
  ⟨s, e.state.pot, e.state.p1Chips, e.state.p2Chips,
    e.state.p1In, e.state.p2In⟩

/-- `SMALL_BLIND` of the source. -/
def SMALL_BLIND : Int := 5

/-- `BIG_BLIND` of the source. -/
def BIG_BLIND : Int := 10

/-- One iteration of `play_full_game`'s hand loop (poker_server.py
lines 447-616), from dealing the hole cards to awarding the pot: post
the blinds capped at the stacks, seed and run the pre-flop round, then
— unless a fold ended the hand — deal the flop/turn/river and run a
fresh round after each deal, and finally settle the showdown, the
winner taking the whole pot and a tie splitting it by integer floor
halves.  `deck` is the shuffled pile, `in1`/`in2` the two players'
input streams; `none` means a deal failed or a betting round blocked
or ran out of fuel. -/
def playOneHand (s1 s2 : Int) (deck : List Card) (in1 in2 : List String)
    (fuel : Nat) : Option HandResult :=
  match deal 2 deck with
  | (none, _) => none
  | (some p1Cards, d1) =>
  match deal 2 d1 with
  | (none, _) => none
  | (some p2Cards, d2) =>
  let sb := min SMALL_BLIND s1
  let bb := min BIG_BLIND s2
  let s1b := s1 - sb
  let s2b := s2 - bb
  let pot := sb + bb
  match roundLoop (initRound s1b s2b pot bb sb bb false) in1 in2 [] fuel with
  | none => none
  | some e0 =>
  match e0.state.p1In, e0.state.p2In with
  | false, _ =>
    some ⟨e0.state.p1Chips, e0.state.p2Chips + e0.state.pot,
      .fold .p2 .preflop, [], [mkRec .preflop e0]⟩
  | true, false =>
    some ⟨e0.state.p1Chips + e0.state.pot, e0.state.p2Chips,
      .fold .p1 .preflop, [], [mkRec .preflop e0]⟩
  | true, true =>
  match deal 3 d2 with
  | (none, _) => none
  | (some flopCards, d3) =>
  match roundLoop (initRound e0.state.p1Chips e0.state.p2Chips e0.state.pot
      0 0 0 false) e0.rem1 e0.rem2 [] fuel with
  | none => none
  | some e1 =>
  match e1.state.p1In, e1.state.p2In with
  | false, _ =>
    some ⟨e1.state.p1Chips, e1.state.p2Chips + e1.state.pot,
      .fold .p2 .flop, flopCards, [mkRec .preflop e0, mkRec .flop e1]⟩
  | true, false =>
    some ⟨e1.state.p1Chips + e1.state.pot, e1.state.p2Chips,
      .fold .p1 .flop, flopCards, [mkRec .preflop e0, mkRec .flop e1]⟩
  | true, true =>
  match deal 1 d3 with
  | (none, _) => none
  | (some turnCards, d4) =>
  let community4 := flopCards ++ turnCards
  match roundLoop (initRound e1.state.p1Chips e1.state.p2Chips e1.state.pot
      0 0 0 false) e1.rem1 e1.rem2 [] fuel with
  | none => none
  | some e2 =>
  match e2.state.p1In, e2.state.p2In with
  | false, _ =>
    some ⟨e2.state.p1Chips, e2.state.p2Chips + e2.state.pot,
      .fold .p2 .turn, community4,
      [mkRec .preflop e0, mkRec .flop e1, mkRec .turn e2]⟩
  | true, false =>
    some ⟨e2.state.p1Chips + e2.state.pot, e2.state.p2Chips,
      .fold .p1 .turn, community4,
      [mkRec .preflop e0, mkRec .flop e1, mkRec .turn e2]⟩
  | true, true =>
  match deal 1 d4 with
  | (none, _) => none
  | (some riverCards, _) =>
  let community5 := community4 ++ riverCards
  match roundLoop (initRound e2.state.p1Chips e2.state.p2Chips e2.state.pot
      0 0 0 false) e2.rem1 e2.rem2 [] fuel with
  | none => none
  | some e3 =>
  let trace := [mkRec .preflop e0, mkRec .flop e1, mkRec .turn e2,
    mkRec .river e3]
  match e3.state.p1In, e3.state.p2In with
  | false, _ =>
    some ⟨e3.state.p1Chips, e3.state.p2Chips + e3.state.pot,
      .fold .p2 .river, community5, trace⟩
  | true, false =>
    some ⟨e3.state.p1Chips + e3.state.pot, e3.state.p2Chips,
      .fold .p1 .river, community5, trace⟩
  | true, true =>
  let p1Best := best_five_of_seven (p1Cards ++ community5)
  let p2Best := best_five_of_seven (p2Cards ++ community5)
  if scoreLtB p2Best p1Best then
    some ⟨e3.state.p1Chips + e3.state.pot, e3.state.p2Chips,
      .showdown .p1, community5, trace⟩
  else if scoreLtB p1Best p2Best then
    some ⟨e3.state.p1Chips, e3.state.p2Chips + e3.state.pot,
      .showdown .p2, community5, trace⟩
  else
    some ⟨e3.state.p1Chips + e3.state.pot / 2,
      e3.state.p2Chips + e3.state.pot / 2,
      .split, community5, trace⟩

end Poker

namespace Poker

/-- The fold step of `best_five_of_seven` on already-computed scores:
keep the strictly greater one (Python `if score > best: best = score`). -/
def maxS (b s : Score) : Score :=
  if scoreLtB b s then s else b

/-- The chips visible to a betting round: pot plus both stacks. -/
def chipSum (st : RoundState) : Int :=
  st.pot + st.p1Chips + st.p2Chips

/-- The betting scenario from the specification: pot 15, current bet
10, player contribution 5, stack 100 (opponent fields arbitrary but
concrete). -/
def callScenario : RoundState :=
  { pot := 15, p1Chips := 100, p2Chips := 500, currentBet := 10,
    p1Contrib := 5, p2Contrib := 10, raiseUsed := false,
    p1In := true, p2In := true, p1AllIn := false, p2AllIn := false,
    lastRaiser := none }

/-- The worked 7-card example from the specification: hole cards A♠ A♥
with community A♦ K♣ K♠ 2♥ 3♦ (suits coded ♠=0, ♥=1, ♦=2, ♣=3). -/
def exampleSeven : List Card :=
  [⟨14, 0⟩, ⟨14, 1⟩, ⟨14, 2⟩, ⟨13, 3⟩, ⟨13, 0⟩, ⟨2, 1⟩, ⟨3, 2⟩]

/-- An ace-to-five hand A♠ 2♥ 3♦ 4♣ 5♠: values 14,2,3,4,5 with mixed
suits. -/
def aceLowHand : List Card :=
  [⟨14, 0⟩, ⟨2, 1⟩, ⟨3, 2⟩, ⟨4, 3⟩, ⟨5, 0⟩]

/-- A genuine straight 2,3,4,5,6 in mixed suits. -/
def straightHand : List Card :=
  [⟨2, 0⟩, ⟨3, 1⟩, ⟨4, 2⟩, ⟨5, 3⟩, ⟨6, 0⟩]

/-- A small concrete pile used to exercise one hand. -/
def sampleDeck : List Card :=
  [⟨2, 0⟩, ⟨3, 1⟩, ⟨4, 2⟩, ⟨5, 3⟩, ⟨6, 0⟩, ⟨7, 1⟩, ⟨8, 2⟩, ⟨9, 3⟩, ⟨10, 0⟩]

/-- The result of the one concrete hand used as a fixture: both stacks
1000, `sampleDeck`, player 1 folds pre-flop. -/
def sampleFoldResult : HandResult :=
  { s1 := 995, s2 := 1005, outcome := .fold .p2 .preflop,
    community := [],
    rounds := [⟨.preflop, 15, 995, 990, false, true⟩] }

end Poker

/-! Helper lemmas: the Python comparison on scores is a strict total
order, and the fold in `best_five_of_seven` computes its maximum. -/

namespace Poker

theorem listLtB_irrefl : ∀ l, listLtB l l = false
  | [] => rfl
  | _ :: as => by simp [listLtB, listLtB_irrefl as]

theorem listLtB_trans : ∀ a b c, listLtB a b = true → listLtB b c = true →
    listLtB a c = true := by
  intro a
  induction a with
  | nil =>
    intro b c hab hbc
    cases b with
    | nil => exact hbc
    | cons y ys =>
      cases c with
      | nil => simp [listLtB] at hbc
      | cons z zs => simp [listLtB]
  | cons x xs ih =>
    intro b c hab hbc
    cases b with
    | nil => simp [listLtB] at hab
    | cons y ys =>
      cases c with
      | nil => simp [listLtB] at hbc
      | cons z zs =>
        simp only [listLtB, Bool.or_eq_true, decide_eq_true_eq,
          Bool.and_eq_true, beq_iff_eq] at hab hbc ⊢
        rcases hab with h1 | ⟨he1, h2⟩
        · rcases hbc with g1 | ⟨ge1, _⟩
          · exact Or.inl (h1.trans g1)
          · exact Or.inl (ge1 ▸ h1)
        · rcases hbc with g1 | ⟨ge1, g2⟩
          · exact Or.inl (he1 ▸ g1)
          · exact Or.inr ⟨he1.trans ge1, ih ys zs h2 g2⟩

theorem listLtB_conn : ∀ a b, listLtB a b = false → listLtB b a = false →
    a = b := by
  intro a
  induction a with
  | nil =>
    intro b hab _
    cases b with
    | nil => rfl
    | cons y ys => simp [listLtB] at hab
  | cons x xs ih =>
    intro b hab hba
    cases b with
    | nil => simp [listLtB] at hba
    | cons y ys =>
      simp only [listLtB, Bool.or_eq_false_iff, decide_eq_false_iff_not,
        Bool.and_eq_false_iff, not_lt] at hab hba
      have hxy : x = y := by
        rcases hab.2 with h | _
        · rcases hba.2 with g | _
          · simp only [beq_eq_false_iff_ne, ne_eq] at h g
            omega
          · omega
        · omega
      subst hxy
      have h2 : listLtB xs ys = false := by
        rcases hab.2 with h | h
        · simp at h
        · exact h
      have h3 : listLtB ys xs = false := by
        rcases hba.2 with h | h
        · simp at h
        · exact h
      rw [ih ys h2 h3]

theorem scoreLtB_irrefl (s : Score) : scoreLtB s s = false := by
  simp [scoreLtB, listLtB_irrefl]

theorem scoreLtB_trans {a b c : Score} (hab : scoreLtB a b = true)
    (hbc : scoreLtB b c = true) : scoreLtB a c = true := by
  simp only [scoreLtB, Bool.or_eq_true, decide_eq_true_eq,
    Bool.and_eq_true, beq_iff_eq] at hab hbc ⊢
  rcases hab with h1 | ⟨he1, h2⟩
  · rcases hbc with g1 | ⟨ge1, _⟩
    · exact Or.inl (h1.trans g1)
    · exact Or.inl (ge1 ▸ h1)
  · rcases hbc with g1 | ⟨ge1, g2⟩
    · exact Or.inl (he1 ▸ g1)
    · exact Or.inr ⟨he1.trans ge1, listLtB_trans _ _ _ h2 g2⟩

theorem scoreLtB_conn {a b : Score} (hab : scoreLtB a b = false)
    (hba : scoreLtB b a = false) : a = b := by
  simp only [scoreLtB, Bool.or_eq_false_iff, decide_eq_false_iff_not,
    not_lt, Bool.and_eq_false_iff] at hab hba
  have h1 : a.1 = b.1 := by
    rcases hab.2 with h | _
    · rcases hba.2 with g | _
      · simp only [beq_eq_false_iff_ne, ne_eq] at h g
        omega
      · omega
    · omega
  have h2 : listLtB a.2 b.2 = false := by
    rcases hab.2 with h | h
    · simp [h1] at h
    · exact h
  have h3 : listLtB b.2 a.2 = false := by
    rcases hba.2 with h | h
    · simp [h1] at h
    · exact h
  have h4 : a.2 = b.2 := listLtB_conn _ _ h2 h3
  exact Prod.ext h1 h4

theorem scoreLtB_asymm {a b : Score} (h : scoreLtB a b = true) :
    scoreLtB b a = false := by
  by_contra hc
  have hba : scoreLtB b a = true := by
    cases hb : scoreLtB b a
    · exact absurd hb hc
    · rfl
  have := scoreLtB_trans h hba
  rw [scoreLtB_irrefl] at this
  exact Bool.false_ne_true this

theorem bool_clash {b : Bool} {C : Prop} (h1 : b = true) (h2 : b = false) :
    C := by
  rw [h1] at h2
  exact absurd h2 (by simp)

theorem maxS_rightComm (b s t : Score) :
    maxS (maxS b s) t = maxS (maxS b t) s := by
  unfold maxS
  cases hbs : scoreLtB b s <;> cases hbt : scoreLtB b t <;>
    cases hst : scoreLtB s t <;> cases hts : scoreLtB t s <;>
    simp only [hbs, hbt, hst, hts, Bool.false_eq_true, if_false, if_true]
  all_goals first
    | rfl
    | exact scoreLtB_conn hst hts
    | exact scoreLtB_conn hts hst
    | exact bool_clash (scoreLtB_trans hbt hts) hbs
    | exact bool_clash (scoreLtB_trans hbs hst) hbt
    | exact bool_clash hts (scoreLtB_asymm hst)

end Poker

namespace Poker

theorem scoreLtB_notLt_trans {x y z : Score} (hxy : scoreLtB x y = false)
    (hyz : scoreLtB y z = false) : scoreLtB x z = false := by
  cases hxz : scoreLtB x z
  · rfl
  · cases hzy : scoreLtB z y
    · have := scoreLtB_conn hyz hzy
      subst this
      exact bool_clash hxz hxy
    · exact bool_clash (scoreLtB_trans hxz hzy) hxy

theorem maxS_not_lt_left (b s : Score) : scoreLtB (maxS b s) b = false := by
  unfold maxS
  cases hbs : scoreLtB b s
  · simp only [Bool.false_eq_true, if_false]
    exact scoreLtB_irrefl b
  · simp only [if_true]
    exact scoreLtB_asymm hbs

theorem maxS_not_lt_right (b s : Score) : scoreLtB (maxS b s) s = false := by
  unfold maxS
  cases hbs : scoreLtB b s
  · simp only [Bool.false_eq_true, if_false]
    exact hbs
  · simp only [if_true]
    exact scoreLtB_irrefl s

theorem foldl_maxS_not_lt_init : ∀ (xs : List Score) (b : Score),
    scoreLtB (xs.foldl maxS b) b = false := by
  intro xs
  induction xs with
  | nil => intro b; exact scoreLtB_irrefl b
  | cons s rest ih =>
    intro b
    simp only [List.foldl_cons]
    exact scoreLtB_notLt_trans (ih (maxS b s)) (maxS_not_lt_left b s)

theorem foldl_maxS_not_lt_mem : ∀ (xs : List Score) (b s : Score), s ∈ xs →
    scoreLtB (xs.foldl maxS b) s = false := by
  intro xs
  induction xs with
  | nil => intro b s h; exact absurd h (List.not_mem_nil s)
  | cons x rest ih =>
    intro b s h
    simp only [List.foldl_cons]
    rcases List.mem_cons.mp h with rfl | hmem
    · exact scoreLtB_notLt_trans (foldl_maxS_not_lt_init rest (maxS b s))
        (maxS_not_lt_right b s)
    · exact ih (maxS b x) s hmem

theorem foldl_maxS_mem : ∀ (xs : List Score) (b : Score),
    xs.foldl maxS b = b ∨ xs.foldl maxS b ∈ xs := by
  intro xs
  induction xs with
  | nil => intro b; exact Or.inl rfl
  | cons s rest ih =>
    intro b
    simp only [List.foldl_cons]
    rcases ih (maxS b s) with heq | hmem
    · rw [heq]
      by_cases hbs : scoreLtB b s = true
      · refine Or.inr (List.mem_cons.mpr (Or.inl ?_))
        simp [maxS, hbs]
      · refine Or.inl ?_
        simp only [Bool.not_eq_true] at hbs
        simp [maxS, hbs]
    · exact Or.inr (List.mem_cons_of_mem s hmem)

end Poker

namespace Poker

theorem evaluate_hand_snd (cs : List Card) :
    (evaluate_hand cs).2 = handValues cs := by
  simp only [evaluate_hand]
  repeat' split
  all_goals rfl

theorem evaluate_hand_fst_nonneg (cs : List Card) :
    0 ≤ (evaluate_hand cs).1 := by
  simp only [evaluate_hand]
  repeat' split
  all_goals norm_num

theorem sentinel_lt_evaluate (cs : List Card) :
    scoreLtB ((-1 : Int), ([] : List Nat)) (evaluate_hand cs) = true := by
  have h := evaluate_hand_fst_nonneg cs
  simp only [scoreLtB, Bool.or_eq_true, decide_eq_true_eq]
  exact Or.inl (by omega)

theorem best_five_eq_foldl (cs : List Card) :
    best_five_of_seven cs =
      ((cs.sublistsLen 5).map evaluate_hand).foldl maxS
        ((-1 : Int), ([] : List Nat)) := by
  unfold best_five_of_seven
  rw [List.foldl_map]
  rfl

theorem handValues_sorted (cs : List Card) :
    (handValues cs).Sorted (· ≥ ·) :=
  List.sorted_insertionSort _ _

theorem handValues_perm (cs : List Card) :
    (handValues cs).Perm (cs.map Card.value) :=
  List.perm_insertionSort _ _

end Poker

namespace Poker

theorem mem_getLastD : ∀ {l : List Nat}, l ≠ [] → l.getLast?.getD 0 ∈ l := by
  intro l
  induction l with
  | nil => intro h; exact absurd rfl h
  | cons a t ih =>
    intro _
    cases t with
    | nil => simp
    | cons b t2 =>
      rw [List.getLast?_cons_cons]
      exact List.mem_cons_of_mem a (ih (by simp))

theorem mem_headD {l : List Nat} (h : l ≠ []) : l.head?.getD 0 ∈ l := by
  cases l with
  | nil => exact absurd rfl h
  | cons a t => simp

theorem sorted_le_headD : ∀ {l : List Nat}, l.Sorted (· ≤ ·) →
    ∀ x ∈ l, l.head?.getD 0 ≤ x := by
  intro l hs x hx
  cases l with
  | nil => exact absurd hx (List.not_mem_nil x)
  | cons a t =>
    simp only [List.head?_cons, Option.getD_some]
    rcases List.mem_cons.mp hx with rfl | hmem
    · exact le_refl x
    · exact (List.sorted_cons.mp hs).1 x hmem

theorem sorted_getLastD_ge : ∀ {l : List Nat}, l.Sorted (· ≤ ·) →
    ∀ x ∈ l, x ≤ l.getLast?.getD 0 := by
  intro l
  induction l with
  | nil => intro _ x hx; exact absurd hx (List.not_mem_nil x)
  | cons a t ih =>
    intro hs x hx
    cases t with
    | nil =>
      rcases List.mem_cons.mp hx with rfl | hmem
      · simp
      · exact absurd hmem (List.not_mem_nil x)
    | cons b t2 =>
      rw [List.getLast?_cons_cons]
      have hs2 := List.sorted_cons.mp hs
      rcases List.mem_cons.mp hx with rfl | hmem
      · have hmemL := mem_getLastD (l := b :: t2) (by simp)
        exact le_trans (hs2.1 _ hmemL) (le_refl _)
      · exact ih hs2.2 x hmem

end Poker

namespace Poker

set_option maxRecDepth 8000

/-- C5: for every hand, the tiebreak component of the Score returned by
`evaluate_hand` is the hand's card values sorted descending, in every
category branch (it is a permutation of the values and is
descending-sorted); and on the worked example — hole A♠ A♥ with
community A♦ K♣ K♠ 2♥ 3♦ — the best five-card hand has category 6
(full house) with tiebreak [14, 14, 14, 13, 13]. -/
theorem tiebreak_sorted_desc_and_example :
    (∀ cs : List Card,
      (evaluate_hand cs).2.Sorted (· ≥ ·) ∧
        (evaluate_hand cs).2.Perm (cs.map Card.value)) ∧
    best_five_of_seven exampleSeven = ((6 : Int), [14, 14, 14, 13, 13]) := by
  constructor
  · intro cs
    rw [evaluate_hand_snd]
    exact ⟨handValues_sorted cs, handValues_perm cs⟩
  · decide

end Poker

namespace Poker

/-- C6: `evaluate_hand`'s straight test holds on a 5-card hand exactly
when the 5 card values are pairwise distinct and max − min = 4, so the
ace-low straight A,2,3,4,5 (values 14,2,3,4,5: max − min = 12) is not
recognized: on the concrete ace-low hand the test is false and the hand
classifies as high card (category 0). -/
theorem straight_iff_distinct_span :
    (∀ cs : List Card, cs.length = 5 →
      (isStraight cs = true ↔
        (cs.map Card.value).Nodup ∧
          ∃ M ∈ cs.map Card.value, ∃ m ∈ cs.map Card.value,
            (∀ x ∈ cs.map Card.value, x ≤ M) ∧
            (∀ x ∈ cs.map Card.value, m ≤ x) ∧ M - m = 4)) ∧
    isStraight aceLowHand = false ∧ (evaluate_hand aceLowHand).1 = 0 := by
  refine ⟨?_, by decide, by decide⟩
  intro cs hlen
  have hvlen : (cs.map Card.value).length = 5 := by
    rw [List.length_map, hlen]
  have hperm : (uniqVals cs).Perm (cs.map Card.value).dedup :=
    List.perm_insertionSort _ _
  have hsorted : (uniqVals cs).Sorted (· ≤ ·) :=
    List.sorted_insertionSort _ _
  have hmemiff : ∀ x, x ∈ uniqVals cs ↔ x ∈ cs.map Card.value := by
    intro x
    rw [hperm.mem_iff, List.mem_dedup]
  constructor
  · intro hstr
    simp only [isStraight, Bool.and_eq_true, beq_iff_eq] at hstr
    obtain ⟨hl5, hspan⟩ := hstr
    have hdlen : (cs.map Card.value).dedup.length = 5 := by
      rw [← hperm.length_eq, hl5]
    have hdeq : (cs.map Card.value).dedup = cs.map Card.value :=
      (List.dedup_sublist _).eq_of_length (by rw [hdlen, hvlen])
    have hnodup : (cs.map Card.value).Nodup := List.dedup_eq_self.mp hdeq
    have hne : uniqVals cs ≠ [] := by
      intro hnil
      rw [hnil] at hl5
      simp at hl5
    refine ⟨hnodup, (uniqVals cs).getLast?.getD 0, ?_,
      (uniqVals cs).head?.getD 0, ?_, ?_, ?_, hspan⟩
    · exact (hmemiff _).mp (mem_getLastD hne)
    · exact (hmemiff _).mp (mem_headD hne)
    · intro x hx
      exact sorted_getLastD_ge hsorted x ((hmemiff x).mpr hx)
    · intro x hx
      exact sorted_le_headD hsorted x ((hmemiff x).mpr hx)
  · rintro ⟨hnodup, M, hM, m, hm, hMub, hmlb, hspan⟩
    have hdeq : (cs.map Card.value).dedup = cs.map Card.value :=
      List.dedup_eq_self.mpr hnodup
    have hl5 : (uniqVals cs).length = 5 := by
      rw [hperm.length_eq, hdeq, hvlen]
    have hne : uniqVals cs ≠ [] := by
      intro hnil
      rw [hnil] at hl5
      simp at hl5
    have hLmem : (uniqVals cs).getLast?.getD 0 ∈ cs.map Card.value :=
      (hmemiff _).mp (mem_getLastD hne)
    have hHmem : (uniqVals cs).head?.getD 0 ∈ cs.map Card.value :=
      (hmemiff _).mp (mem_headD hne)
    have hLeq : (uniqVals cs).getLast?.getD 0 = M :=
      le_antisymm (hMub _ hLmem)
        (sorted_getLastD_ge hsorted M ((hmemiff M).mpr hM))
    have hHeq : (uniqVals cs).head?.getD 0 = m :=
      le_antisymm (sorted_le_headD hsorted m ((hmemiff m).mpr hm))
        (hmlb _ hHmem)
    simp only [isStraight, Bool.and_eq_true, beq_iff_eq]
    exact ⟨hl5, by rw [hLeq, hHeq, hspan]⟩

end Poker

namespace Poker

/-- Witness for C6: the theorem applied to the concrete straight
2,3,4,5,6 certifies `isStraight`. -/
theorem straight_iff_distinct_span_witness :
    isStraight straightHand = true :=
  (straight_iff_distinct_span.1 straightHand (by decide)).mpr
    ⟨by decide, 6, by decide, 2, by decide, by decide, by decide, by decide⟩

/-- C10: `Deck.deal(n)` is not atomic on failure — when `n` exceeds
the cards remaining it raises only after every remaining card has
already been popped, leaving the deck empty (mutated), not unchanged. -/
theorem deal_fails_after_emptying :
    ∀ (n : Nat) (cs : List Card), cs.length < n →
      (deal n cs).1 = none ∧ (deal n cs).2 = [] := by
  intro n
  induction n with
  | zero => intro cs h; omega
  | succ m ih =>
    intro cs h
    match hcs : cs.getLast? with
    | none =>
      have hnil : cs = [] := by
        cases cs with
        | nil => rfl
        | cons a t => simp [List.getLast?_eq_getLast] at hcs
      subst hnil
      simp [deal]
    | some c =>
      have hne : cs ≠ [] := by
        intro hnil
        subst hnil
        simp at hcs
      have hlen : cs.dropLast.length < m := by
        have := List.length_pos.mpr hne
        simp only [List.length_dropLast]
        omega
      have hih := ih cs.dropLast hlen
      simp only [deal, hcs]
      rcases hdeal : deal m cs.dropLast with ⟨res, rest⟩
      rw [hdeal] at hih
      simp only at hih
      rw [hih.1, hih.2]
      simp

/-- Witness for C10: dealing 3 from a 2-card pile fails and leaves the
pile empty. -/
theorem deal_fails_after_emptying_witness :
    (deal 3 [(⟨2, 0⟩ : Card), ⟨3, 1⟩]).1 = none ∧
      (deal 3 [(⟨2, 0⟩ : Card), ⟨3, 1⟩]).2 = [] :=
  deal_fails_after_emptying 3 [⟨2, 0⟩, ⟨3, 1⟩] (by decide)

end Poker

namespace Relay

/-- C9 (amended): with `"to":"server"`, a payload whose uppercasing is
`"LIST"` gets the comma-joined id list (so the exact payload `"LIST"`
does), any payload whose uppercasing is not `"LIST"` gets
`"UNKNOWN_COMMAND"`, and a message to a target id not connected gets
`"ERROR:Target <id> not connected"` back; none of these branches leave
the session loop. -/
theorem server_command_replies (clients : List String) (sender p t : String) :
    (handleMessage clients sender ⟨some "server", some "LIST"⟩ =
      ⟨.reply ("LIST:" ++ String.intercalate "," clients), false⟩) ∧
    (Poker.strUpper p ≠ "LIST" →
      handleMessage clients sender ⟨some "server", some p⟩ =
        ⟨.reply "UNKNOWN_COMMAND", false⟩) ∧
    (t ≠ "" → t ≠ "server" → clients.contains t = false →
      handleMessage clients sender ⟨some t, some p⟩ =
        ⟨.reply ("ERROR:Target " ++ t ++ " not connected"), false⟩) := by
  refine ⟨?_, ?_, ?_⟩
  · simp only [handleMessage,
      show (("server" == "") : Bool) = false by decide,
      show (("server" == "server") : Bool) = true by decide,
      show ((Poker.strUpper "LIST" == "LIST") : Bool) = true by decide]
    simp
  · intro hp
    simp only [handleMessage,
      show (("server" == "") : Bool) = false by decide,
      show (("server" == "server") : Bool) = true by decide,
      beq_eq_false_iff_ne.mpr hp]
    simp
  · intro ht1 ht2 ht3
    simp only [handleMessage, beq_eq_false_iff_ne.mpr ht1,
      beq_eq_false_iff_ne.mpr ht2, ht3]
    simp

/-- Witness for C9 (amended): concrete unknown command and unknown
target replies obtained from the theorem. -/
theorem server_command_replies_witness :
    (handleMessage ["A", "B"] "A" ⟨some "server", some "PING"⟩ =
      ⟨.reply "UNKNOWN_COMMAND", false⟩) ∧
    (handleMessage ["A"] "A" ⟨some "B", some "x"⟩ =
      ⟨.reply "ERROR:Target B not connected", false⟩) :=
  ⟨(server_command_replies ["A", "B"] "A" "PING" "B").2.1 (by decide),
   (server_command_replies ["A"] "A" "x" "B").2.2 (by decide) (by decide)
     (by decide)⟩

/-- Counterexample for C9 as stated: the payload `"list"` is a server
command other than `"LIST"`, yet it is answered with the id list, not
with `"UNKNOWN_COMMAND"` (the source compares `payload.upper()`). -/
theorem server_command_lowercase_list_counterexample :
    handleMessage ["A"] "A" ⟨some "server", some "list"⟩ =
      ⟨.reply "LIST:A", false⟩ ∧
    handleMessage ["A"] "A" ⟨some "server", some "list"⟩ ≠
      ⟨.reply "UNKNOWN_COMMAND", false⟩ := by
  constructor
  · decide
  · decide

end Relay

namespace Poker

/-- C4: when the amount owed (current bet − own contribution) is
positive, a `call` by either active player moves exactly
`min(owed, stack)` from that player's stack into the pot and their
contribution, leaves the turn outcome a normal fall-through, and marks
the player all-in exactly when the move empties the stack. -/
theorem call_moves_min_owed :
    (∀ (st : RoundState) (rest : List String),
      0 < st.currentBet - st.p1Contrib → st.p1AllIn = false →
      ∃ st', p1Turn st ("call" :: rest) = some (.ok st', rest) ∧
        st'.p1Chips =
          st.p1Chips - min (st.currentBet - st.p1Contrib) st.p1Chips ∧
        st'.p1Contrib =
          st.p1Contrib + min (st.currentBet - st.p1Contrib) st.p1Chips ∧
        st'.pot = st.pot + min (st.currentBet - st.p1Contrib) st.p1Chips ∧
        (st'.p1AllIn = true ↔ st'.p1Chips = 0)) ∧
    (∀ (st : RoundState) (rest : List String),
      0 < st.currentBet - st.p2Contrib → st.p2AllIn = false →
      ∃ st', p2Turn st ("call" :: rest) = some (.ok st', rest) ∧
        st'.p2Chips =
          st.p2Chips - min (st.currentBet - st.p2Contrib) st.p2Chips ∧
        st'.p2Contrib =
          st.p2Contrib + min (st.currentBet - st.p2Contrib) st.p2Chips ∧
        st'.pot = st.pot + min (st.currentBet - st.p2Contrib) st.p2Chips ∧
        (st'.p2AllIn = true ↔ st'.p2Chips = 0)) := by
  constructor
  · intro st rest _ hai
    simp only [p1Turn,
      show strLower "call" = "call" by decide,
      show (("call" == "fold") : Bool) = false by decide,
      show (("call" == "all-in") : Bool) = false by decide,
      show (("call" == "call") : Bool) = true by decide]
    simp only [Bool.false_eq_true, if_false, if_true]
    refine ⟨_, rfl, ?_, ?_, ?_, ?_⟩
    · split <;> simp
    · split <;> simp
    · split <;> simp
    · split
      · rename_i h
        simp only [beq_iff_eq] at h
        simp [h]
      · rename_i h
        simp only [beq_iff_eq] at h
        simp [hai, h]
  · intro st rest _ hai
    simp only [p2Turn,
      show strLower "call" = "call" by decide,
      show (("call" == "fold") : Bool) = false by decide,
      show (("call" == "all-in") : Bool) = false by decide,
      show (("call" == "call") : Bool) = true by decide]
    simp only [Bool.false_eq_true, if_false, if_true]
    refine ⟨_, rfl, ?_, ?_, ?_, ?_⟩
    · split <;> simp
    · split <;> simp
    · split <;> simp
    · split
      · rename_i h
        simp only [beq_iff_eq] at h
        simp [h]
      · rename_i h
        simp only [beq_iff_eq] at h
        simp [hai, h]

/-- Witness for C4, instantiating the specification's scenario: pot 15,
current bet 10, contribution 5, stack 100; a call yields stack 95,
contribution 10, pot 20 and does not put the player all-in. -/
theorem call_moves_min_owed_witness :
    ∃ st', p1Turn callScenario ["call"] = some (.ok st', []) ∧
      st'.p1Chips = 95 ∧ st'.p1Contrib = 10 ∧ st'.pot = 20 ∧
      st'.p1AllIn = false := by
  obtain ⟨st', heq, hc, hco, hp, hall⟩ :=
    call_moves_min_owed.1 callScenario [] (by decide) (by decide)
  refine ⟨st', heq, ?_, ?_, ?_, ?_⟩
  · rw [hc]; decide
  · rw [hco]; decide
  · rw [hp]; decide
  · cases hb : st'.p1AllIn
    · rfl
    · have h0 := hall.mp hb
      rw [hc] at h0
      exact absurd h0 (by decide)

end Poker

namespace Poker

theorem p1Turn_sum {st : RoundState} {ins rest : List String} {r : TurnRes}
    (h : p1Turn st ins = some (r, rest)) : chipSum r.state = chipSum st := by
  cases ins with
  | nil => simp [p1Turn] at h
  | cons raw tl =>
    simp only [p1Turn] at h
    repeat' split at h
    all_goals simp only [Option.some.injEq, Prod.mk.injEq, reduceCtorEq] at h
    all_goals obtain ⟨h1, h2⟩ := h
    all_goals subst h1
    all_goals simp [TurnRes.state, chipSum]

theorem p2Turn_sum {st : RoundState} {ins rest : List String} {r : TurnRes}
    (h : p2Turn st ins = some (r, rest)) : chipSum r.state = chipSum st := by
  cases ins with
  | nil => simp [p2Turn] at h
  | cons raw tl =>
    simp only [p2Turn] at h
    repeat' split at h
    all_goals simp only [Option.some.injEq, Prod.mk.injEq, reduceCtorEq] at h
    all_goals obtain ⟨h1, h2⟩ := h
    all_goals subst h1
    all_goals simp [TurnRes.state, chipSum]
    all_goals ring

theorem p1Turn_retry_eq {st st' : RoundState} {ins rest : List String}
    (h : p1Turn st ins = some (.retry st', rest)) : st' = st := by
  cases ins with
  | nil => simp [p1Turn] at h
  | cons raw tl =>
    simp only [p1Turn] at h
    repeat' split at h
    all_goals simp only [Option.some.injEq, Prod.mk.injEq, reduceCtorEq,
      false_and, TurnRes.retry.injEq] at h
    all_goals exact h.1.symm

theorem p2Turn_retry_eq {st st' : RoundState} {ins rest : List String}
    (h : p2Turn st ins = some (.retry st', rest)) : st' = st := by
  cases ins with
  | nil => simp [p2Turn] at h
  | cons raw tl =>
    simp only [p2Turn] at h
    repeat' split at h
    all_goals simp only [Option.some.injEq, Prod.mk.injEq, reduceCtorEq,
      false_and, TurnRes.retry.injEq] at h
    all_goals exact h.1.symm

theorem p1Turn_ended_folded {st st' : RoundState} {ins rest : List String}
    (h : p1Turn st ins = some (.ended st', rest)) : st'.p1In = false := by
  cases ins with
  | nil => simp [p1Turn] at h
  | cons raw tl =>
    simp only [p1Turn] at h
    repeat' split at h
    all_goals simp only [Option.some.injEq, Prod.mk.injEq, reduceCtorEq,
      false_and, TurnRes.ended.injEq] at h
    all_goals rw [← h.1]

theorem p2Turn_ended_folded {st st' : RoundState} {ins rest : List String}
    (h : p2Turn st ins = some (.ended st', rest)) : st'.p2In = false := by
  cases ins with
  | nil => simp [p2Turn] at h
  | cons raw tl =>
    simp only [p2Turn] at h
    repeat' split at h
    all_goals simp only [Option.some.injEq, Prod.mk.injEq, reduceCtorEq,
      false_and, TurnRes.ended.injEq] at h
    all_goals rw [← h.1]

end Poker
namespace Poker

theorem roundLoop_sum : ∀ (fuel : Nat) (st : RoundState) (in1 in2 : List String)
    (log : List Player) (e : RoundExit),
    roundLoop st in1 in2 log fuel = some e → chipSum e.state = chipSum st := by
  intro fuel
  induction fuel with
  | zero => intro st in1 in2 log e h; simp [roundLoop] at h
  | succ n ih =>
    intro st in1 in2 log e h
    rw [roundLoop] at h
    split at h
    · obtain rfl : (⟨st, in1, in2, log⟩ : RoundExit) = e := by simpa using h
      rfl
    · rcases hp1 : (if st.p1In && !st.p1AllIn then
          (p1Turn st in1).map (fun r => (r.1, r.2, true))
        else some (TurnRes.ok st, in1, false)) with _ | ⟨r1, in1a, prompted1⟩
      · rw [hp1] at h
        simp at h
      · rw [hp1] at h
        simp only [] at h
        have hs1 : chipSum r1.state = chipSum st := by
          by_cases hc : (st.p1In && !st.p1AllIn) = true
          · rw [if_pos hc] at hp1
            obtain ⟨a, ha, hfa⟩ := Option.map_eq_some'.mp hp1
            have : r1 = a.1 := by
              simp only [Prod.mk.injEq] at hfa
              exact hfa.1.symm
            subst this
            exact p1Turn_sum (by rw [← ha])
          · rw [if_neg hc] at hp1
            simp only [Option.some.injEq, Prod.mk.injEq] at hp1
            rw [← hp1.1]
            rfl
        cases r1 with
        | ended st1 =>
          simp only [] at h
          simp only [Option.some.injEq] at h
          rw [← h]
          exact hs1
        | retry st1 =>
          simp only [] at h
          exact (ih st1 in1a in2 _ e h).trans hs1
        | ok st1 =>
          simp only [] at h
          rcases hp2 : (if st1.p2In && !st1.p2AllIn then
              (p2Turn st1 in2).map (fun r => (r.1, r.2, true))
            else some (TurnRes.ok st1, in2, false)) with _ | ⟨r2, in2a, prompted2⟩
          · rw [hp2] at h
            simp at h
          · rw [hp2] at h
            simp only [] at h
            have hs2 : chipSum r2.state = chipSum st1 := by
              by_cases hc : (st1.p2In && !st1.p2AllIn) = true
              · rw [if_pos hc] at hp2
                obtain ⟨a, ha, hfa⟩ := Option.map_eq_some'.mp hp2
                have : r2 = a.1 := by
                  simp only [Prod.mk.injEq] at hfa
                  exact hfa.1.symm
                subst this
                exact p2Turn_sum (by rw [← ha])
              · rw [if_neg hc] at hp2
                simp only [Option.some.injEq, Prod.mk.injEq] at hp2
                rw [← hp2.1]
                rfl
            cases r2 with
            | ended st2 =>
              simp only [] at h
              simp only [Option.some.injEq] at h
              rw [← h]
              exact hs2.trans hs1
            | retry st2 =>
              simp only [] at h
              exact (ih st2 in1a in2a _ e h).trans (hs2.trans hs1)
            | ok st2 =>
              simp only [] at h
              split at h
              · split at h
                · simp only [Option.some.injEq] at h
                  rw [← h]
                  exact hs2.trans hs1
                · have := ih _ _ _ _ e h
                  rw [this]
                  exact (rfl : chipSum _ = chipSum st2).trans (hs2.trans hs1)
              · exact (ih st2 in1a in2a _ e h).trans (hs2.trans hs1)

end Poker

namespace Poker

theorem p1Phase_extract {st : RoundState} {in1 in1a : List String}
    {r1 : TurnRes} {p : Bool}
    (hp1 : (if st.p1In && !st.p1AllIn then
        (p1Turn st in1).map (fun r => (r.1, r.2, true))
      else some (TurnRes.ok st, in1, false)) = some (r1, in1a, p)) :
    p1Turn st in1 = some (r1, in1a) ∨ (r1 = TurnRes.ok st ∧ in1a = in1) := by
  by_cases hc : (st.p1In && !st.p1AllIn) = true
  · rw [if_pos hc] at hp1
    obtain ⟨⟨ar, arest⟩, ha, hfa⟩ := Option.map_eq_some'.mp hp1
    simp only [Prod.mk.injEq] at hfa
    obtain ⟨h1, h2, _⟩ := hfa
    subst h1
    subst h2
    exact Or.inl ha
  · rw [if_neg hc] at hp1
    simp only [Option.some.injEq, Prod.mk.injEq] at hp1
    exact Or.inr ⟨hp1.1.symm, hp1.2.1.symm⟩

theorem p2Phase_extract {st : RoundState} {in2 in2a : List String}
    {r2 : TurnRes} {p : Bool}
    (hp2 : (if st.p2In && !st.p2AllIn then
        (p2Turn st in2).map (fun r => (r.1, r.2, true))
      else some (TurnRes.ok st, in2, false)) = some (r2, in2a, p)) :
    p2Turn st in2 = some (r2, in2a) ∨ (r2 = TurnRes.ok st ∧ in2a = in2) := by
  by_cases hc : (st.p2In && !st.p2AllIn) = true
  · rw [if_pos hc] at hp2
    obtain ⟨⟨ar, arest⟩, ha, hfa⟩ := Option.map_eq_some'.mp hp2
    simp only [Prod.mk.injEq] at hfa
    obtain ⟨h1, h2, _⟩ := hfa
    subst h1
    subst h2
    exact Or.inl ha
  · rw [if_neg hc] at hp2
    simp only [Option.some.injEq, Prod.mk.injEq] at hp2
    exact Or.inr ⟨hp2.1.symm, hp2.2.1.symm⟩

theorem roundLoop_ends_contrib_eq : ∀ (fuel : Nat) (st : RoundState)
    (in1 in2 : List String) (log : List Player) (e : RoundExit),
    roundLoop st in1 in2 log fuel = some e →
    e.state.p1In = true → e.state.p2In = true →
    e.state.p1Contrib = e.state.p2Contrib := by
  intro fuel
  induction fuel with
  | zero => intro st in1 in2 log e h; simp [roundLoop] at h
  | succ n ih =>
    intro st in1 in2 log e h hin1 hin2
    rw [roundLoop] at h
    split at h
    · rename_i hguard
      obtain rfl : (⟨st, in1, in2, log⟩ : RoundExit) = e := by simpa using h
      simp only [Bool.and_eq_true, beq_iff_eq] at hguard
      exact hguard.2
    · rcases hp1 : (if st.p1In && !st.p1AllIn then
          (p1Turn st in1).map (fun r => (r.1, r.2, true))
        else some (TurnRes.ok st, in1, false)) with _ | ⟨r1, in1a, prompted1⟩
      · rw [hp1] at h
        simp at h
      · rw [hp1] at h
        simp only [] at h
        cases r1 with
        | ended st1 =>
          simp only [] at h
          simp only [Option.some.injEq] at h
          subst h
          simp only at hin1
          rcases p1Phase_extract hp1 with hpt | ⟨heq, _⟩
          · rw [p1Turn_ended_folded hpt] at hin1
            exact absurd hin1 (by simp)
          · exact absurd heq (by simp)
        | retry st1 =>
          simp only [] at h
          exact ih st1 in1a in2 _ e h hin1 hin2
        | ok st1 =>
          simp only [] at h
          rcases hp2 : (if st1.p2In && !st1.p2AllIn then
              (p2Turn st1 in2).map (fun r => (r.1, r.2, true))
            else some (TurnRes.ok st1, in2, false)) with _ | ⟨r2, in2a, prompted2⟩
          · rw [hp2] at h
            simp at h
          · rw [hp2] at h
            simp only [] at h
            cases r2 with
            | ended st2 =>
              simp only [] at h
              simp only [Option.some.injEq] at h
              subst h
              simp only at hin2
              rcases p2Phase_extract hp2 with hpt | ⟨heq, _⟩
              · rw [p2Turn_ended_folded hpt] at hin2
                exact absurd hin2 (by simp)
              · exact absurd heq (by simp)
            | retry st2 =>
              simp only [] at h
              exact ih st2 in1a in2a _ e h hin1 hin2
            | ok st2 =>
              simp only [] at h
              split at h
              · rename_i hcontrib
                split at h
                · simp only [Option.some.injEq] at h
                  subst h
                  simp only at hcontrib ⊢
                  simpa using hcontrib
                · exact ih _ _ _ _ e h hin1 hin2
              · exact ih st2 in1a in2a _ e h hin1 hin2

end Poker

namespace Poker

/-- C2 (amended): the round ends at once, with no prompting and no
input consumed, when at the top of an iteration a player is all-in and
contributions are equal; and whenever the loop returns without a fold
(both active flags still true), the two contributions are equal.  After
a raise is matched the `last_raiser` marker is only cleared at the end
of that iteration, so the round does not end there — each non-all-in
player is prompted at least once more (see the counterexample). -/
theorem betting_round_termination :
    (∀ (st : RoundState) (in1 in2 : List String) (log : List Player)
      (fuel : Nat),
      ((st.p1AllIn || st.p2AllIn) && st.p1Contrib == st.p2Contrib) = true →
      roundLoop st in1 in2 log (fuel + 1) = some ⟨st, in1, in2, log⟩) ∧
    (∀ (fuel : Nat) (st : RoundState) (in1 in2 : List String)
      (log : List Player) (e : RoundExit),
      roundLoop st in1 in2 log fuel = some e →
      e.state.p1In = true → e.state.p2In = true →
      e.state.p1Contrib = e.state.p2Contrib) := by
  constructor
  · intro st in1 in2 log fuel hguard
    rw [roundLoop, if_pos hguard]
  · exact roundLoop_ends_contrib_eq

/-- Witness for C2 (amended): a state with both players all-in and
equal contributions exits with nothing consumed and nothing logged, and
a both-check round ends with equal (zero) contributions. -/
theorem betting_round_termination_witness :
    roundLoop (initRound 0 0 30 0 15 15 false) ["x"] ["y"] [] 6 =
      some ⟨initRound 0 0 30 0 15 15 false, ["x"], ["y"], []⟩ ∧
    (⟨initRound 1000 1000 0 0 0 0 false, [], [],
        [Player.p1, Player.p2]⟩ : RoundExit).state.p1Contrib =
      (⟨initRound 1000 1000 0 0 0 0 false, [], [],
        [Player.p1, Player.p2]⟩ : RoundExit).state.p2Contrib :=
  ⟨betting_round_termination.1 (initRound 0 0 30 0 15 15 false)
      ["x"] ["y"] [] 5 (by decide),
   betting_round_termination.2 3 (initRound 1000 1000 0 0 0 0 false)
      ["check"] ["check"] []
      ⟨initRound 1000 1000 0 0 0 0 false, [], [], [Player.p1, Player.p2]⟩
      (by decide) (by decide) (by decide)⟩

/-- Counterexample for C2 as stated: player 1 raises to 10 and player 2
calls, making the contributions equal — yet the round does not end
there.  With no further input the loop blocks waiting for more actions
(`none`), and when both players supply one more `check` each, both are
prompted again (the prompt log has four entries, two after the call
that matched the raise). -/
theorem matched_raise_keeps_prompting_counterexample :
    roundLoop (initRound 1000 1000 0 0 0 0 false)
        ["raise", "10"] ["call"] [] 10 = none ∧
    roundLoop (initRound 1000 1000 0 0 0 0 false)
        ["raise", "10", "check"] ["call", "check"] [] 10 =
      some ⟨{ pot := 20, p1Chips := 990, p2Chips := 990, currentBet := 10,
              p1Contrib := 10, p2Contrib := 10, raiseUsed := true,
              p1In := true, p2In := true, p1AllIn := false,
              p2AllIn := false, lastRaiser := none }, [], [],
            [Player.p1, Player.p2, Player.p1, Player.p2]⟩ := by
  constructor
  · decide
  · decide

end Poker

namespace Poker

/-- C3 (amended): rejected input never changes the round state — a
`retry` outcome of either player's turn carries the state unchanged —
and for player 1 the loop re-enters the top with only the invalid input
consumed and the same state, so player 1 is re-prompted immediately.
For player 2, however, the `continue` also re-enters the loop from the
top: the iteration restarts at player 1's turn (with whatever player
1's action this iteration already did), so player 1 acts again before
player 2 is re-prompted (see the counterexample). -/
theorem invalid_input_rejected_locally :
    (∀ (st st' : RoundState) (ins rest : List String),
      p1Turn st ins = some (.retry st', rest) → st' = st) ∧
    (∀ (st st' : RoundState) (ins rest : List String),
      p2Turn st ins = some (.retry st', rest) → st' = st) ∧
    (∀ (st : RoundState) (in1 rest1 in2 : List String) (log : List Player)
      (fuel : Nat),
      ((st.p1AllIn || st.p2AllIn) && st.p1Contrib == st.p2Contrib) = false →
      (st.p1In && !st.p1AllIn) = true →
      p1Turn st in1 = some (.retry st, rest1) →
      roundLoop st in1 in2 log (fuel + 1) =
        roundLoop st rest1 in2 (log ++ [Player.p1]) fuel) ∧
    (∀ (st st1 : RoundState) (in1 in1a in2 rest2 : List String)
      (log : List Player) (fuel : Nat),
      ((st.p1AllIn || st.p2AllIn) && st.p1Contrib == st.p2Contrib) = false →
      (st.p1In && !st.p1AllIn) = true →
      p1Turn st in1 = some (.ok st1, in1a) →
      (st1.p2In && !st1.p2AllIn) = true →
      p2Turn st1 in2 = some (.retry st1, rest2) →
      roundLoop st in1 in2 log (fuel + 1) =
        roundLoop st1 in1a rest2 (log ++ [Player.p1, Player.p2]) fuel) := by
  refine ⟨?_, ?_, ?_, ?_⟩
  · intro st st' ins rest h
    exact p1Turn_retry_eq h
  · intro st st' ins rest h
    exact p2Turn_retry_eq h
  · intro st in1 rest1 in2 log fuel hg hc hp1
    rw [roundLoop, if_neg (by simp [hg])]
    have hsc : (if st.p1In && !st.p1AllIn then
        (p1Turn st in1).map (fun r => (r.1, r.2, true))
      else some (TurnRes.ok st, in1, false)) =
        some (TurnRes.retry st, rest1, true) := by
      rw [if_pos hc, hp1]
      rfl
    rw [hsc]
    simp only []
    simp
  · intro st st1 in1 in1a in2 rest2 log fuel hg hc1 hp1 hc2 hp2
    rw [roundLoop, if_neg (by simp [hg])]
    have hsc1 : (if st.p1In && !st.p1AllIn then
        (p1Turn st in1).map (fun r => (r.1, r.2, true))
      else some (TurnRes.ok st, in1, false)) =
        some (TurnRes.ok st1, in1a, true) := by
      rw [if_pos hc1, hp1]
      rfl
    rw [hsc1]
    simp only []
    have hsc2 : (if st1.p2In && !st1.p2AllIn then
        (p2Turn st1 in2).map (fun r => (r.1, r.2, true))
      else some (TurnRes.ok st1, in2, false)) =
        some (TurnRes.retry st1, rest2, true) := by
      rw [if_pos hc2, hp2]
      rfl
    rw [hsc2]
    simp only []
    simp

/-- Witness for C3 (amended): a concrete bogus keyword from player 1 is
consumed, the state is unchanged, and the loop continues from the top
(player 1 to be re-prompted). -/
theorem invalid_input_rejected_locally_witness :
    roundLoop (initRound 1000 1000 0 0 0 0 false)
        ["bogus", "check"] ["check"] [] 6 =
      roundLoop (initRound 1000 1000 0 0 0 0 false)
        ["check"] ["check"] [Player.p1] 5 :=
  invalid_input_rejected_locally.2.2.1
    (initRound 1000 1000 0 0 0 0 false) ["bogus", "check"] ["check"]
    ["check"] [] 5 (by decide) (by decide) (by decide)

/-- Counterexample for C3 as stated: player 2's invalid keyword
`"blah"` does not lead to player 2 being re-prompted before player 1
acts again.  With player 1 out of further input the loop blocks waiting
for a new player-1 action (`none`); giving player 1 a second `check`
lets the round finish, and the prompt log [p1, p2, p1, p2] shows player
1 acting right after player 2's rejected input. -/
theorem p2_invalid_restarts_iteration_counterexample :
    roundLoop (initRound 1000 1000 0 0 0 0 false)
        ["check"] ["blah", "check"] [] 10 = none ∧
    roundLoop (initRound 1000 1000 0 0 0 0 false)
        ["check", "check"] ["blah", "check"] [] 10 =
      some ⟨initRound 1000 1000 0 0 0 0 false, [], [],
            [Player.p1, Player.p2, Player.p1, Player.p2]⟩ := by
  constructor
  · decide
  · decide

end Poker
namespace Poker

theorem chipSum_initRound (a b pot bet c1 c2 : Int) (ru : Bool) :
    chipSum (initRound a b pot bet c1 c2 ru) = pot + a + b := rfl

theorem deal_some_length : ∀ (n : Nat) (cs ds rest : List Card),
    deal n cs = (some ds, rest) → ds.length = n := by
  intro n
  induction n with
  | zero =>
    intro cs ds rest h
    simp only [deal, Prod.mk.injEq, Option.some.injEq] at h
    rw [← h.1]
    rfl
  | succ m ih =>
    intro cs ds rest h
    simp only [deal] at h
    rcases hlast : cs.getLast? with _ | c
    · rw [hlast] at h
      simp at h
    · rw [hlast] at h
      simp only [] at h
      rcases hdl : deal m cs.dropLast with ⟨o, rest'⟩
      rw [hdl] at h
      cases o with
      | none =>
        simp only [] at h
        simp at h
      | some ds' =>
        simp only [Prod.mk.injEq, Option.some.injEq] at h
        rw [← h.1]
        simp [ih cs.dropLast ds' rest' (by rw [hdl])]

end Poker
namespace Poker

theorem playOneHand_spec : ∀ (s1 s2 : Int) (deck : List Card)
    (in1 in2 : List String) (fuel : Nat) (r : HandResult),
    playOneHand s1 s2 deck in1 in2 fuel = some r →
    (r.outcome ≠ .split → r.s1 + r.s2 = s1 + s2) ∧
    (r.outcome = .split → s1 + s2 - 1 ≤ r.s1 + r.s2 ∧ r.s1 + r.s2 ≤ s1 + s2) ∧
    (∀ (w : Player) (s : Stage), r.outcome = .fold w s →
      r.community.length = s.communityCount ∧
      r.rounds.length = s.idx + 1 ∧
      ∃ rec, r.rounds.getLast? = some rec ∧ rec.stage = s ∧
        (w = .p1 → r.s1 = rec.s1 + rec.pot ∧ r.s2 = rec.s2 ∧
          rec.p2In = false) ∧
        (w = .p2 → r.s1 = rec.s1 ∧ r.s2 = rec.s2 + rec.pot ∧
          rec.p1In = false)) := by
  intro s1 s2 deck in1 in2 fuel r h
  simp only [playOneHand] at h
  rcases hd1 : deal 2 deck with ⟨o1, d1⟩
  rw [hd1] at h
  cases o1 with
  | none => simp at h
  | some p1Cards =>
  simp only [] at h
  rcases hd2 : deal 2 d1 with ⟨o2, d2⟩
  rw [hd2] at h
  cases o2 with
  | none => simp at h
  | some p2Cards =>
  simp only [] at h
  rcases hr0 : roundLoop
    (initRound (s1 - min SMALL_BLIND s1) (s2 - min BIG_BLIND s2)
      (min SMALL_BLIND s1 + min BIG_BLIND s2) (min BIG_BLIND s2)
      (min SMALL_BLIND s1) (min BIG_BLIND s2) false) in1 in2 [] fuel with _ | e0
  · rw [hr0] at h
    simp at h
  · rw [hr0] at h
    simp only [] at h
    have hS0 : e0.state.pot + e0.state.p1Chips + e0.state.p2Chips =
        s1 + s2 := by
      have hs := roundLoop_sum fuel _ _ _ [] e0 hr0
      rw [chipSum_initRound] at hs
      simp only [chipSum] at hs
      rw [hs]
      ring
    cases hf0 : e0.state.p1In with
    | false =>
      rw [hf0] at h
      simp only [Option.some.injEq] at h
      subst h
      refine ⟨?_, ?_, ?_⟩
      · intro _
        simp only []
        omega
      · intro hc
        simp at hc
      · intro w s hws
        simp only [Outcome.fold.injEq] at hws
        obtain ⟨rfl, rfl⟩ := hws.symm.imp Eq.symm Eq.symm
        refine ⟨?_, rfl, mkRec .preflop e0, rfl, rfl, ?_, ?_⟩
        · rfl
        · intro hw
          simp at hw
        · intro _
          exact ⟨rfl, rfl, hf0⟩
    | true =>
      rw [hf0] at h
      cases hg0 : e0.state.p2In with
      | false =>
        rw [hg0] at h
        simp only [Option.some.injEq] at h
        subst h
        refine ⟨?_, ?_, ?_⟩
        · intro _
          simp only []
          omega
        · intro hc
          simp at hc
        · intro w s hws
          simp only [Outcome.fold.injEq] at hws
          obtain ⟨rfl, rfl⟩ := hws.symm.imp Eq.symm Eq.symm
          refine ⟨?_, rfl, mkRec .preflop e0, rfl, rfl, ?_, ?_⟩
          · rfl
          · intro _
            exact ⟨rfl, rfl, hg0⟩
          · intro hw
            simp at hw
      | true =>
        rw [hg0] at h
        simp only [] at h
        rcases hd3 : deal 3 d2 with ⟨o3, d3⟩
        rw [hd3] at h
        cases o3 with
        | none => simp at h
        | some flopCards =>
        simp only [] at h
        have hflen : flopCards.length = 3 := deal_some_length 3 d2 _ _ hd3
        rcases hr1 : roundLoop
          (initRound e0.state.p1Chips e0.state.p2Chips e0.state.pot
            0 0 0 false) e0.rem1 e0.rem2 [] fuel with _ | e1
        · rw [hr1] at h
          simp at h
        · rw [hr1] at h
          simp only [] at h
          have hS1 : e1.state.pot + e1.state.p1Chips + e1.state.p2Chips =
              s1 + s2 := by
            have hs := roundLoop_sum fuel _ _ _ [] e1 hr1
            rw [chipSum_initRound] at hs
            simp only [chipSum] at hs
            rw [hs]
            omega
          cases hf1 : e1.state.p1In with
          | false =>
            rw [hf1] at h
            simp only [Option.some.injEq] at h
            subst h
            refine ⟨?_, ?_, ?_⟩
            · intro _
              simp only []
              omega
            · intro hc
              simp at hc
            · intro w s hws
              simp only [Outcome.fold.injEq] at hws
              obtain ⟨rfl, rfl⟩ := hws.symm.imp Eq.symm Eq.symm
              refine ⟨?_, rfl, mkRec .flop e1, rfl, rfl, ?_, ?_⟩
              · simp only []; rw [hflen]; decide
              · intro hw
                simp at hw
              · intro _
                exact ⟨rfl, rfl, hf1⟩
          | true =>
            rw [hf1] at h
            cases hg1 : e1.state.p2In with
            | false =>
              rw [hg1] at h
              simp only [Option.some.injEq] at h
              subst h
              refine ⟨?_, ?_, ?_⟩
              · intro _
                simp only []
                omega
              · intro hc
                simp at hc
              · intro w s hws
                simp only [Outcome.fold.injEq] at hws
                obtain ⟨rfl, rfl⟩ := hws.symm.imp Eq.symm Eq.symm
                refine ⟨?_, rfl, mkRec .flop e1, rfl, rfl, ?_, ?_⟩
                · simp only []; rw [hflen]; decide
                · intro _
                  exact ⟨rfl, rfl, hg1⟩
                · intro hw
                  simp at hw
            | true =>
              rw [hg1] at h
              simp only [] at h
              rcases hd4 : deal 1 d3 with ⟨o4, d4⟩
              rw [hd4] at h
              cases o4 with
              | none => simp at h
              | some turnCards =>
              simp only [] at h
              have htlen : turnCards.length = 1 := deal_some_length 1 d3 _ _ hd4
              rcases hr2 : roundLoop
                (initRound e1.state.p1Chips e1.state.p2Chips e1.state.pot
                  0 0 0 false) e1.rem1 e1.rem2 [] fuel with _ | e2
              · rw [hr2] at h
                simp at h
              · rw [hr2] at h
                simp only [] at h
                have hS2 : e2.state.pot + e2.state.p1Chips + e2.state.p2Chips =
                    s1 + s2 := by
                  have hs := roundLoop_sum fuel _ _ _ [] e2 hr2
                  rw [chipSum_initRound] at hs
                  simp only [chipSum] at hs
                  rw [hs]
                  omega
                cases hf2 : e2.state.p1In with
                | false =>
                  rw [hf2] at h
                  simp only [Option.some.injEq] at h
                  subst h
                  refine ⟨?_, ?_, ?_⟩
                  · intro _
                    simp only []
                    omega
                  · intro hc
                    simp at hc
                  · intro w s hws
                    simp only [Outcome.fold.injEq] at hws
                    obtain ⟨rfl, rfl⟩ := hws.symm.imp Eq.symm Eq.symm
                    refine ⟨?_, rfl, mkRec .turn e2, rfl, rfl, ?_, ?_⟩
                    · simp only [List.length_append]; rw [hflen, htlen]; decide
                    · intro hw
                      simp at hw
                    · intro _
                      exact ⟨rfl, rfl, hf2⟩
                | true =>
                  rw [hf2] at h
                  cases hg2 : e2.state.p2In with
                  | false =>
                    rw [hg2] at h
                    simp only [Option.some.injEq] at h
                    subst h
                    refine ⟨?_, ?_, ?_⟩
                    · intro _
                      simp only []
                      omega
                    · intro hc
                      simp at hc
                    · intro w s hws
                      simp only [Outcome.fold.injEq] at hws
                      obtain ⟨rfl, rfl⟩ := hws.symm.imp Eq.symm Eq.symm
                      refine ⟨?_, rfl, mkRec .turn e2, rfl, rfl, ?_, ?_⟩
                      · simp only [List.length_append]; rw [hflen, htlen]; decide
                      · intro _
                        exact ⟨rfl, rfl, hg2⟩
                      · intro hw
                        simp at hw
                  | true =>
                    rw [hg2] at h
                    simp only [] at h
                    rcases hd5 : deal 1 d4 with ⟨o5, d5⟩
                    rw [hd5] at h
                    cases o5 with
                    | none => simp at h
                    | some riverCards =>
                    simp only [] at h
                    have hrlen : riverCards.length = 1 := deal_some_length 1 d4 _ _ hd5
                    rcases hr3 : roundLoop
                      (initRound e2.state.p1Chips e2.state.p2Chips e2.state.pot
                        0 0 0 false) e2.rem1 e2.rem2 [] fuel with _ | e3
                    · rw [hr3] at h
                      simp at h
                    · rw [hr3] at h
                      simp only [] at h
                      have hS3 : e3.state.pot + e3.state.p1Chips + e3.state.p2Chips =
                          s1 + s2 := by
                        have hs := roundLoop_sum fuel _ _ _ [] e3 hr3
                        rw [chipSum_initRound] at hs
                        simp only [chipSum] at hs
                        rw [hs]
                        omega
                      cases hf3 : e3.state.p1In with
                      | false =>
                        rw [hf3] at h
                        simp only [Option.some.injEq] at h
                        subst h
                        refine ⟨?_, ?_, ?_⟩
                        · intro _
                          simp only []
                          omega
                        · intro hc
                          simp at hc
                        · intro w s hws
                          simp only [Outcome.fold.injEq] at hws
                          obtain ⟨rfl, rfl⟩ := hws.symm.imp Eq.symm Eq.symm
                          refine ⟨?_, rfl, mkRec .river e3, rfl, rfl, ?_, ?_⟩
                          · simp only [List.length_append]; rw [hflen, htlen, hrlen]; decide
                          · intro hw
                            simp at hw
                          · intro _
                            exact ⟨rfl, rfl, hf3⟩
                      | true =>
                        rw [hf3] at h
                        cases hg3 : e3.state.p2In with
                        | false =>
                          rw [hg3] at h
                          simp only [Option.some.injEq] at h
                          subst h
                          refine ⟨?_, ?_, ?_⟩
                          · intro _
                            simp only []
                            omega
                          · intro hc
                            simp at hc
                          · intro w s hws
                            simp only [Outcome.fold.injEq] at hws
                            obtain ⟨rfl, rfl⟩ := hws.symm.imp Eq.symm Eq.symm
                            refine ⟨?_, rfl, mkRec .river e3, rfl, rfl, ?_, ?_⟩
                            · simp only [List.length_append]; rw [hflen, htlen, hrlen]; decide
                            · intro _
                              exact ⟨rfl, rfl, hg3⟩
                            · intro hw
                              simp at hw
                        | true =>
                          rw [hg3] at h
                          simp only [] at h
                          split at h
                          · simp only [Option.some.injEq] at h
                            subst h
                            refine ⟨?_, ?_, ?_⟩
                            · intro _
                              simp only []
                              omega
                            · intro hc
                              simp at hc
                            · intro w s hws
                              simp at hws
                          · split at h
                            · simp only [Option.some.injEq] at h
                              subst h
                              refine ⟨?_, ?_, ?_⟩
                              · intro _
                                simp only []
                                omega
                              · intro hc
                                simp at hc
                              · intro w s hws
                                simp at hws
                            · simp only [Option.some.injEq] at h
                              subst h
                              refine ⟨?_, ?_, ?_⟩
                              · intro hc
                                simp at hc
                              · intro _
                                simp only []
                                omega
                              · intro w s hws
                                simp at hws

end Poker

namespace Poker

/-- C1: chips are conserved over a completed hand.  When the hand does
not end in a split pot (fold or outright showdown win) the final stacks
sum to the initial stacks; when it ends in a split, each side receives
`pot / 2` (built into `playOneHand`'s split branch) and the sum drops
by at most the one odd chip. -/
theorem chip_conservation (s1 s2 : Int) (deck : List Card)
    (in1 in2 : List String) (fuel : Nat) (r : HandResult)
    (h : playOneHand s1 s2 deck in1 in2 fuel = some r) :
    (r.outcome ≠ .split → r.s1 + r.s2 = s1 + s2) ∧
    (r.outcome = .split →
      s1 + s2 - 1 ≤ r.s1 + r.s2 ∧ r.s1 + r.s2 ≤ s1 + s2) :=
  ⟨(playOneHand_spec s1 s2 deck in1 in2 fuel r h).1,
   (playOneHand_spec s1 s2 deck in1 in2 fuel r h).2.1⟩

/-- Witness for C1: a concrete pre-flop fold hand conserves the
2000-chip total. -/
theorem chip_conservation_witness :
    sampleFoldResult.s1 + sampleFoldResult.s2 = 1000 + 1000 :=
  (chip_conservation 1000 1000 sampleDeck ["fold"] [] 20 sampleFoldResult
    (by decide)).1 (by decide)

/-- C8: when a betting round returns with a player's active flag false,
the hand ends at that very round: the community cards dealt so far are
exactly those of the folding stage (none for pre-flop, 3 for flop, 4
for turn, 5 for river), no later betting round runs, and the full pot
of that round is added to the remaining player's stack while the
folder's stack is untouched. -/
theorem fold_ends_hand_immediately (s1 s2 : Int) (deck : List Card)
    (in1 in2 : List String) (fuel : Nat) (r : HandResult)
    (h : playOneHand s1 s2 deck in1 in2 fuel = some r)
    (w : Player) (s : Stage) (hws : r.outcome = .fold w s) :
    r.community.length = s.communityCount ∧
    r.rounds.length = s.idx + 1 ∧
    ∃ rec, r.rounds.getLast? = some rec ∧ rec.stage = s ∧
      (w = .p1 → r.s1 = rec.s1 + rec.pot ∧ r.s2 = rec.s2 ∧
        rec.p2In = false) ∧
      (w = .p2 → r.s1 = rec.s1 ∧ r.s2 = rec.s2 + rec.pot ∧
        rec.p1In = false) :=
  (playOneHand_spec s1 s2 deck in1 in2 fuel r h).2.2 w s hws

/-- Witness for C8: in the concrete pre-flop fold hand, no community
card was dealt, exactly one round ran, and player 2 received the whole
15-chip pot. -/
theorem fold_ends_hand_immediately_witness :
    sampleFoldResult.community.length = Stage.preflop.communityCount ∧
    sampleFoldResult.rounds.length = Stage.preflop.idx + 1 ∧
    ∃ rec, sampleFoldResult.rounds.getLast? = some rec ∧
      rec.stage = Stage.preflop ∧
      (Player.p2 = Player.p1 → sampleFoldResult.s1 = rec.s1 + rec.pot ∧
        sampleFoldResult.s2 = rec.s2 ∧ rec.p2In = false) ∧
      (Player.p2 = Player.p2 → sampleFoldResult.s1 = rec.s1 ∧
        sampleFoldResult.s2 = rec.s2 + rec.pot ∧ rec.p1In = false) :=
  fold_ends_hand_immediately 1000 1000 sampleDeck ["fold"] [] 20
    sampleFoldResult (by decide) Player.p2 Stage.preflop (by decide)

end Poker
namespace Poker

theorem handValues_perm_eq {l₁ l₂ : List Card} (h : l₁.Perm l₂) :
    handValues l₁ = handValues l₂ := by
  refine List.eq_of_perm_of_sorted ?_ (handValues_sorted l₁)
    (handValues_sorted l₂)
  exact (handValues_perm l₁).trans ((h.map Card.value).trans
    (handValues_perm l₂).symm)

theorem isFlush_perm_eq {l₁ l₂ : List Card} (h : l₁.Perm l₂) :
    isFlush l₁ = isFlush l₂ := by
  unfold isFlush
  rw [List.toFinset_eq_of_perm _ _ (h.map Card.suit)]

theorem uniqVals_perm_eq {l₁ l₂ : List Card} (h : l₁.Perm l₂) :
    uniqVals l₁ = uniqVals l₂ := by
  refine List.eq_of_perm_of_sorted ?_ (List.sorted_insertionSort _ _)
    (List.sorted_insertionSort _ _)
  exact (List.perm_insertionSort _ _).trans
    (((h.map Card.value).dedup).trans (List.perm_insertionSort _ _).symm)

theorem isStraight_perm_eq {l₁ l₂ : List Card} (h : l₁.Perm l₂) :
    isStraight l₁ = isStraight l₂ := by
  unfold isStraight
  rw [uniqVals_perm_eq h]

theorem sortedCounts_perm_eq {l₁ l₂ : List Card} (h : l₁.Perm l₂) :
    sortedCounts l₁ = sortedCounts l₂ := by
  unfold sortedCounts
  have hcount : (fun v => (l₁.map Card.value).count v) =
      (fun v => (l₂.map Card.value).count v) := by
    funext v
    exact (h.map Card.value).count_eq v
  rw [hcount]
  refine List.eq_of_perm_of_sorted ?_ (List.sorted_insertionSort _ _)
    (List.sorted_insertionSort _ _)
  exact (List.perm_insertionSort _ _).trans
    ((((h.map Card.value).dedup).map _).trans
      (List.perm_insertionSort _ _).symm)

theorem evaluate_hand_perm {l₁ l₂ : List Card} (h : l₁.Perm l₂) :
    evaluate_hand l₁ = evaluate_hand l₂ := by
  unfold evaluate_hand
  rw [handValues_perm_eq h, isFlush_perm_eq h, isStraight_perm_eq h,
    sortedCounts_perm_eq h]

theorem scores_map_perm {l₁ l₂ : List Card} (h : l₁.Perm l₂) :
    ((l₁.sublistsLen 5).map evaluate_hand).Perm
      ((l₂.sublistsLen 5).map evaluate_hand) := by
  have hg : ∀ l : List Card, (l.sublistsLen 5).map evaluate_hand =
      (Multiset.powersetCardAux 5 l).map
        (fun m => Quotient.liftOn m evaluate_hand
          (fun a b hab => evaluate_hand_perm hab)) := by
    intro l
    rw [Multiset.powersetCardAux_eq_map_coe, List.map_map]
    rfl
  rw [hg, hg]
  exact (Multiset.powersetCardAux_perm h).map _

theorem best_five_of_seven_perm {l₁ l₂ : List Card} (h : l₁.Perm l₂) :
    best_five_of_seven l₁ = best_five_of_seven l₂ := by
  rw [best_five_eq_foldl, best_five_eq_foldl]
  exact @List.Perm.foldl_eq _ _ maxS _ _ (RightCommutative.mk maxS_rightComm)
    (scores_map_perm h) _

end Poker

namespace Poker

/-- C7: on a 7-card input, `best_five_of_seven` returns the maximum
score under the lexicographic order over all 21 five-card subsets — it
is one of the 21 subset scores and no subset score exceeds it — and the
result is invariant under any permutation of the 7 input cards. -/
theorem best_of_seven_is_max_and_perm_invariant :
    (∀ cs : List Card, cs.length = 7 →
      ((cs.sublistsLen 5).map evaluate_hand).length = 21 ∧
      best_five_of_seven cs ∈ (cs.sublistsLen 5).map evaluate_hand ∧
      ∀ sc ∈ (cs.sublistsLen 5).map evaluate_hand,
        scoreLtB (best_five_of_seven cs) sc = false) ∧
    (∀ cs₁ cs₂ : List Card, cs₁.Perm cs₂ →
      best_five_of_seven cs₁ = best_five_of_seven cs₂) := by
  constructor
  · intro cs hlen
    have hcard : ((cs.sublistsLen 5).map evaluate_hand).length = 21 := by
      rw [List.length_map, List.length_sublistsLen, hlen]
      decide
    refine ⟨hcard, ?_, ?_⟩
    · rw [best_five_eq_foldl]
      rcases foldl_maxS_mem ((cs.sublistsLen 5).map evaluate_hand)
          ((-1 : Int), ([] : List Nat)) with heq | hmem
      · exfalso
        have hne : (cs.sublistsLen 5).map evaluate_hand ≠ [] := by
          intro hnil
          rw [hnil] at hcard
          simp at hcard
        obtain ⟨s0, hs0⟩ := List.exists_mem_of_ne_nil _ hne
        obtain ⟨c, _, rfl⟩ := List.mem_map.mp hs0
        have hnotlt := foldl_maxS_not_lt_mem
          ((cs.sublistsLen 5).map evaluate_hand)
          ((-1 : Int), ([] : List Nat)) (evaluate_hand c) hs0
        rw [heq] at hnotlt
        exact bool_clash (sentinel_lt_evaluate c) hnotlt
      · exact hmem
    · intro sc hsc
      rw [best_five_eq_foldl]
      exact foldl_maxS_not_lt_mem _ _ sc hsc
  · intro cs₁ cs₂ h
    exact best_five_of_seven_perm h

/-- Witness for C7: the worked 7-card example has 21 subset scores and
its best-of-seven value is unchanged by reversing the card order. -/
theorem best_of_seven_is_max_and_perm_invariant_witness :
    ((exampleSeven.sublistsLen 5).map evaluate_hand).length = 21 ∧
    best_five_of_seven exampleSeven =
      best_five_of_seven exampleSeven.reverse :=
  ⟨(best_of_seven_is_max_and_perm_invariant.1 exampleSeven (by decide)).1,
   best_of_seven_is_max_and_perm_invariant.2 exampleSeven
     exampleSeven.reverse (by decide)⟩

end Poker
